import Mathlib

/-!
Shallow embedding of `src/rtl-sdr-audio.c` (an RTL-SDR amplitude-demodulation
audio player) and verification of the specification's claims about it.

Modelling conventions:
* C `double` arithmetic is modelled by exact rational arithmetic (`ℚ`); the
  one transcendental operation, `sqrt`, is modelled by `Real.sqrt` on the
  rational value cast to `ℝ`.
* The raw I/Q buffer `unsigned char *iqBuffer` is modelled as a total
  function `Nat → Nat`; the C read `iqBuffer[idx] & 0xFF` becomes
  `iq idx &&& 255`, which reproduces the byte masking of the source.
* The globals of the program (`do_exit`, `audio_channel`, `g_audio_buffer`)
  together with the stream of frames handed to `snd_pcm_writei` (the audio
  sink) form an explicit `State` record; `sdr_callback` is a function from
  a raw buffer, a length and a state to a state.
* The body of the per-frame `for` loop of `sdr_callback` has three
  independent effects per index `j`: accumulating the decimation sums
  (locals `sumI`, `sumQ`, then `i`, `q`), updating the peak `maxA`, and
  writing the audio buffer slots.  Each effect is embedded as its own
  recursion over the same index range, which is equivalent because the
  iterations only communicate through those per-effect accumulators.
* For bounds analysis (claim about in-range accesses) a second, partial
  embedding of the decimation sums over a finite `List` with `Option`
  results is given (`sumIQFromList`), to be compared with the total one.
-/

namespace RtlSdrAudio

/-- `#define AUDIO_BUFFER_LENGTH 16384` -/
def AUDIO_BUFFER_LENGTH : Nat := 16384

/-- `#define AUDIO_CHANNELS 2` -/
def AUDIO_CHANNELS : Nat := 2

/-- `#define SDR_SAMPLE_RATIO 5` (decimation ratio; renamed here). -/
def SDR_DECIMATION : Nat := 5

/-- `#define SDR_BUFFER_LENGTH (AUDIO_BUFFER_LENGTH * SDR_SAMPLE_RATIO * 2)` -/
def SDR_BUFFER_LENGTH : Nat := AUDIO_BUFFER_LENGTH * SDR_DECIMATION * 2

/-- One decimation summand: `(((iqBuffer[idx] & 0xFF) - 127.5) / 127.5)`
cast to `double`, for the byte at index `idx` of the raw buffer. -/
def sample (iq : Nat → Nat) (idx : Nat) : ℚ :=
  (((iq idx &&& 255 : Nat) : ℚ) - 127.5) / 127.5

/-- The inner `for(k...)` loop of `sdr_callback`: running pair
`(sumI, sumQ)` after `m` iterations for output frame `j`.
`sumI += sample(iq, j*5*2 + k*2); sumQ += sample(iq, j*5*2 + k*2 + 1)`. -/
def sumIQ (iq : Nat → Nat) (j : Nat) : Nat → ℚ × ℚ
  | 0 => (0, 0)
  | m + 1 =>
    ((sumIQ iq j m).1 + sample iq (j * SDR_DECIMATION * 2 + m * 2),
     (sumIQ iq j m).2 + sample iq (j * SDR_DECIMATION * 2 + m * 2 + 1))

/-- `i = (sumI / SDR_SAMPLE_RATIO);` — the decimated I component of frame `j`. -/
def i (iq : Nat → Nat) (j : Nat) : ℚ :=
  (sumIQ iq j SDR_DECIMATION).1 / (SDR_DECIMATION : ℚ)

/-- `q = (sumQ / SDR_SAMPLE_RATIO);` — the decimated Q component of frame `j`. -/
def q (iq : Nat → Nat) (j : Nat) : ℚ :=
  (sumIQ iq j SDR_DECIMATION).2 / (SDR_DECIMATION : ℚ)

/-- `a = sqrt((i * i) + (q * q));` — the envelope magnitude of frame `j`. -/
noncomputable def a (iq : Nat → Nat) (j : Nat) : ℝ :=
  Real.sqrt (((i iq j : ℝ)) ^ 2 + ((q iq j : ℝ)) ^ 2)

/-- Running value of the local `maxA` after the first `n` frames:
`maxA = 0;` then per frame `if (a > maxA) maxA = a;`. -/
noncomputable def maxAUpTo (iq : Nat → Nat) : Nat → ℝ
  | 0 => 0
  | n + 1 => max (maxAUpTo iq n) (a iq n)

/-- The peak level the callback emits on its level meter: the value of
`maxA` after the full frame loop of one invocation.  It is a function of
the raw buffer alone because `maxA` is a local variable initialised to
`0` at the top of every call. -/
noncomputable def maxA (iq : Nat → Nat) : ℝ :=
  maxAUpTo iq AUDIO_BUFFER_LENGTH

/-- The two audio-buffer writes of one frame `j`:
`if(audio_channel == 0 || audio_channel == 1) g_audio_buffer[(j*2)] = q;`
`if(audio_channel == 0 || audio_channel == 2) g_audio_buffer[(j*2)+1] = q;` -/
def writeFrame (ch : ℤ) (v : ℚ) (j : Nat) (b : Nat → ℚ) : Nat → ℚ :=
  let b1 := if ch = 0 ∨ ch = 1 then Function.update b (2 * j) v else b
  if ch = 0 ∨ ch = 2 then Function.update b1 (2 * j + 1) v else b1

/-- The audio-buffer effect of the outer `for(j...)` loop, after the first
`n` frames, starting from buffer contents `b`. -/
def audioLoop (ch : ℤ) (iq : Nat → Nat) (b : Nat → ℚ) : Nat → Nat → ℚ
  | 0 => b
  | n + 1 => writeFrame ch (q iq n) n (audioLoop ch iq b n)

/-- The mutable global state of the program, together with the sequence of
buffers handed to the audio sink (`snd_pcm_writei`). -/
structure State where
  do_exit : Bool
  audio_channel : ℤ
  g_audio_buffer : Nat → ℚ
  sink : List (List ℚ)

/-- `sdr_callback(unsigned char *iqBuffer, uint32_t len, void *ctx)`.
The source never consults `len`; it is received and ignored.  When
`do_exit` is set the function returns at once.  Otherwise it runs the
frame loop and then hands the whole interleaved buffer
(`AUDIO_BUFFER_LENGTH` frames × `AUDIO_CHANNELS` channels) to the sink. -/
def sdr_callback (iq : Nat → Nat) (len : Nat) (s : State) : State :=
  if s.do_exit then s
  else
    let newbuf := audioLoop s.audio_channel iq s.g_audio_buffer AUDIO_BUFFER_LENGTH
    { s with
      g_audio_buffer := newbuf
      sink := s.sink ++ [(List.range (AUDIO_BUFFER_LENGTH * AUDIO_CHANNELS)).map newbuf] }

/-- The tail of `main`: `return r >= 0 ? r : -r;` where `r` is the value
returned by `rtlsdr_read_async` (the delivery loop). -/
def main_return (r : ℤ) : ℤ :=
  if 0 ≤ r then r else -r

/-- Partial (bounds-checked) embedding of the decimation sums: the raw
buffer is a finite list and every read is checked; an out-of-range read
collapses the whole computation to `none`. -/
def sumIQFromList (l : List Nat) (j : Nat) : Nat → Option (ℚ × ℚ)
  | 0 => some (0, 0)
  | m + 1 =>
    match sumIQFromList l j m,
          l.get? (j * SDR_DECIMATION * 2 + m * 2),
          l.get? (j * SDR_DECIMATION * 2 + m * 2 + 1) with
    | some s, some bi, some bq =>
        some (s.1 + (((bi &&& 255 : Nat) : ℚ) - 127.5) / 127.5,
              s.2 + (((bq &&& 255 : Nat) : ℚ) - 127.5) / 127.5)
    | _, _, _ => none

/-! Helper lemmas about the audio-buffer loop. -/

/-- Pointwise description of the two conditional writes of one frame. -/
lemma writeFrame_apply (ch : ℤ) (v : ℚ) (j : Nat) (b : Nat → ℚ) (idx : Nat) :
    writeFrame ch v j b idx =
      if (ch = 0 ∨ ch = 2) ∧ idx = 2 * j + 1 then v
      else if (ch = 0 ∨ ch = 1) ∧ idx = 2 * j then v
      else b idx := by
  unfold writeFrame
  by_cases h2 : ch = 0 ∨ ch = 2 <;> by_cases h1 : ch = 0 ∨ ch = 1 <;>
    simp [h1, h2, Function.update_apply]

lemma writeFrame_hit (ch : ℤ) (v : ℚ) (j : Nat) (b : Nat → ℚ) (idx : Nat)
    (h : ((ch = 0 ∨ ch = 2) ∧ idx = 2 * j + 1) ∨ ((ch = 0 ∨ ch = 1) ∧ idx = 2 * j)) :
    writeFrame ch v j b idx = v := by
  rw [writeFrame_apply]
  rcases h with h | h
  · rw [if_pos h]
  · by_cases h2 : (ch = 0 ∨ ch = 2) ∧ idx = 2 * j + 1
    · rw [if_pos h2]
    · rw [if_neg h2, if_pos h]

lemma writeFrame_miss (ch : ℤ) (v : ℚ) (j : Nat) (b : Nat → ℚ) (idx : Nat)
    (h : ¬ (((ch = 0 ∨ ch = 2) ∧ idx = 2 * j + 1) ∨ ((ch = 0 ∨ ch = 1) ∧ idx = 2 * j))) :
    writeFrame ch v j b idx = b idx := by
  rw [writeFrame_apply, if_neg (fun hc => h (Or.inl hc)),
      if_neg (fun hc => h (Or.inr hc))]

/-- Every audio-buffer cell is, for a given mode, buffer and frame count,
either never written (its value is the initial one, whatever that was) or
written with a value that does not depend on the initial contents. -/
lemma audioLoop_cell (ch : ℤ) (iq : Nat → Nat) (n idx : Nat) :
    (∀ b : Nat → ℚ, audioLoop ch iq b n idx = b idx) ∨
    (∃ v : ℚ, ∀ b : Nat → ℚ, audioLoop ch iq b n idx = v) := by
  induction n with
  | zero => exact Or.inl fun b => rfl
  | succ n ih =>
    by_cases h : ((ch = 0 ∨ ch = 2) ∧ idx = 2 * n + 1) ∨ ((ch = 0 ∨ ch = 1) ∧ idx = 2 * n)
    · exact Or.inr ⟨q iq n, fun b => writeFrame_hit ch (q iq n) n _ idx h⟩
    · rcases ih with ih | ⟨v, hv⟩
      · exact Or.inl fun b => by
          rw [show audioLoop ch iq b (n + 1) idx
                = writeFrame ch (q iq n) n (audioLoop ch iq b n) idx from rfl,
             writeFrame_miss ch _ n _ idx h, ih b]
      · exact Or.inr ⟨v, fun b => by
          rw [show audioLoop ch iq b (n + 1) idx
                = writeFrame ch (q iq n) n (audioLoop ch iq b n) idx from rfl,
             writeFrame_miss ch _ n _ idx h, hv b]⟩

/-- Running the frame loop a second time over its own output changes nothing. -/
lemma audioLoop_idem (ch : ℤ) (iq : Nat → Nat) (b : Nat → ℚ) (n : Nat) :
    audioLoop ch iq (audioLoop ch iq b n) n = audioLoop ch iq b n := by
  funext idx
  rcases audioLoop_cell ch iq n idx with h | ⟨v, hv⟩
  · rw [h (audioLoop ch iq b n)]
  · rw [hv (audioLoop ch iq b n), hv b]

/-- When the mode selects the left channel, cell `2*j` holds the decimated
Q value of frame `j` after the loop has passed frame `j`. -/
lemma audioLoop_left_val (ch : ℤ) (iq : Nat → Nat) (b : Nat → ℚ) (n j : Nat)
    (hch : ch = 0 ∨ ch = 1) (hj : j < n) :
    audioLoop ch iq b n (2 * j) = q iq j := by
  induction n with
  | zero => omega
  | succ n ih =>
    show writeFrame ch (q iq n) n (audioLoop ch iq b n) (2 * j) = q iq j
    rcases Nat.lt_succ_iff_lt_or_eq.mp hj with h | h
    · rw [writeFrame_miss _ _ _ _ _ (by omega : ¬ _), ih h]
    · subst h
      exact writeFrame_hit _ _ _ _ _ (Or.inr ⟨hch, rfl⟩)

/-- When the mode selects the right channel, cell `2*j+1` holds the
decimated Q value of frame `j` after the loop has passed frame `j`. -/
lemma audioLoop_right_val (ch : ℤ) (iq : Nat → Nat) (b : Nat → ℚ) (n j : Nat)
    (hch : ch = 0 ∨ ch = 2) (hj : j < n) :
    audioLoop ch iq b n (2 * j + 1) = q iq j := by
  induction n with
  | zero => omega
  | succ n ih =>
    show writeFrame ch (q iq n) n (audioLoop ch iq b n) (2 * j + 1) = q iq j
    rcases Nat.lt_succ_iff_lt_or_eq.mp hj with h | h
    · rw [writeFrame_miss _ _ _ _ _ (by omega : ¬ _), ih h]
    · subst h
      exact writeFrame_hit _ _ _ _ _ (Or.inl ⟨hch, rfl⟩)

/-- When the mode does not select the left channel, no even cell is ever
written. -/
lemma audioLoop_left_skip (ch : ℤ) (iq : Nat → Nat) (b : Nat → ℚ) (n j : Nat)
    (hch : ¬ (ch = 0 ∨ ch = 1)) :
    audioLoop ch iq b n (2 * j) = b (2 * j) := by
  induction n with
  | zero => rfl
  | succ n ih =>
    show writeFrame ch (q iq n) n (audioLoop ch iq b n) (2 * j) = b (2 * j)
    rw [writeFrame_miss, ih]
    rintro (⟨_, he⟩ | ⟨hc, _⟩)
    · omega
    · exact hch hc

/-- When the mode does not select the right channel, no odd cell is ever
written. -/
lemma audioLoop_right_skip (ch : ℤ) (iq : Nat → Nat) (b : Nat → ℚ) (n j : Nat)
    (hch : ¬ (ch = 0 ∨ ch = 2)) :
    audioLoop ch iq b n (2 * j + 1) = b (2 * j + 1) := by
  induction n with
  | zero => rfl
  | succ n ih =>
    show writeFrame ch (q iq n) n (audioLoop ch iq b n) (2 * j + 1) = b (2 * j + 1)
    rw [writeFrame_miss, ih]
    rintro (⟨hc, _⟩ | ⟨_, he⟩)
    · exact hch hc
    · omega

/-! Numeric lemmas about the decimation sums. -/

/-- Each decimation summand lies in `[-1, 1]`: the masked byte is in
`[0, 255]` and the offset-127.5 encoding maps that onto `[-1, 1]`. -/
lemma sample_bounds (iq : Nat → Nat) (idx : Nat) :
    -1 ≤ sample iq idx ∧ sample iq idx ≤ 1 := by
  unfold sample
  have hb : (iq idx &&& 255) ≤ 255 := Nat.and_le_right
  have h0 : (0 : ℚ) ≤ ((iq idx &&& 255 : Nat) : ℚ) := Nat.cast_nonneg _
  have h255 : ((iq idx &&& 255 : Nat) : ℚ) ≤ 255 := by exact_mod_cast hb
  constructor
  · rw [le_div_iff (by norm_num : (0 : ℚ) < 127.5)]
    linarith
  · rw [div_le_one (by norm_num : (0 : ℚ) < 127.5)]
    linarith

/-- The running sums after `m` iterations lie in `[-m, m]`. -/
lemma sumIQ_bounds (iq : Nat → Nat) (j m : Nat) :
    (-(m : ℚ) ≤ (sumIQ iq j m).1 ∧ (sumIQ iq j m).1 ≤ m) ∧
    (-(m : ℚ) ≤ (sumIQ iq j m).2 ∧ (sumIQ iq j m).2 ≤ m) := by
  induction m with
  | zero => simp [sumIQ]
  | succ m ih =>
    have hI := sample_bounds iq (j * SDR_DECIMATION * 2 + m * 2)
    have hQ := sample_bounds iq (j * SDR_DECIMATION * 2 + m * 2 + 1)
    have hm : ((m + 1 : Nat) : ℚ) = (m : ℚ) + 1 := by push_cast; ring
    refine ⟨⟨?_, ?_⟩, ⟨?_, ?_⟩⟩ <;>
      simp only [sumIQ, hm] <;> linarith [ih.1.1, ih.1.2, ih.2.1, ih.2.2]

/-- The decimated Q component always lies in `[-1, 1]`. -/
lemma q_bounds (iq : Nat → Nat) (j : Nat) :
    -1 ≤ q iq j ∧ q iq j ≤ 1 := by
  unfold q
  have h := (sumIQ_bounds iq j SDR_DECIMATION).2
  have h5 : (0 : ℚ) < (SDR_DECIMATION : ℚ) := by norm_num [SDR_DECIMATION]
  constructor
  · rw [le_div_iff h5]
    have : -((SDR_DECIMATION : Nat) : ℚ) ≤ (sumIQ iq j SDR_DECIMATION).2 := h.1
    linarith
  · rw [div_le_one h5]
    exact h.2

/-- The running decimation sums are the partial sums of the claim's
explicit summation formula. -/
lemma sumIQ_eq_sum (iq : Nat → Nat) (j m : Nat) :
    (sumIQ iq j m).1 = ∑ k in Finset.range m, sample iq (j * SDR_DECIMATION * 2 + k * 2) ∧
    (sumIQ iq j m).2 = ∑ k in Finset.range m, sample iq (j * SDR_DECIMATION * 2 + k * 2 + 1) := by
  induction m with
  | zero => simp [sumIQ]
  | succ m ih =>
    simp only [sumIQ, Finset.sum_range_succ, ih.1, ih.2, and_self]

/-! Lemmas about the running peak `maxA`. -/

lemma a_nonneg (iq : Nat → Nat) (j : Nat) : 0 ≤ a iq j :=
  Real.sqrt_nonneg _

lemma maxAUpTo_nonneg (iq : Nat → Nat) (n : Nat) : 0 ≤ maxAUpTo iq n := by
  induction n with
  | zero => exact le_refl 0
  | succ n ih => exact le_trans ih (le_max_left _ _)

/-- Every frame's envelope magnitude is bounded by the running peak once
the loop has passed that frame. -/
lemma le_maxAUpTo (iq : Nat → Nat) (n j : Nat) (hj : j < n) :
    a iq j ≤ maxAUpTo iq n := by
  induction n with
  | zero => omega
  | succ n ih =>
    rcases Nat.lt_succ_iff_lt_or_eq.mp hj with h | h
    · exact le_trans (ih h) (le_max_left _ _)
    · subst h
      exact le_max_right _ _

/-- The running peak is attained at some frame (for a nonempty range),
because every magnitude is nonnegative and the peak starts at `0`. -/
lemma maxAUpTo_attained (iq : Nat → Nat) (n : Nat) (hn : 0 < n) :
    ∃ j, j < n ∧ maxAUpTo iq n = a iq j := by
  induction n with
  | zero => omega
  | succ n ih =>
    rcases Nat.eq_zero_or_pos n with h0 | hp
    · subst h0
      exact ⟨0, Nat.zero_lt_one, by
        simp [maxAUpTo, max_eq_right (a_nonneg iq 0)]⟩
    · obtain ⟨j, hj, he⟩ := ih hp
      by_cases hle : maxAUpTo iq n ≤ a iq n
      · exact ⟨n, Nat.lt_succ_self n, by simp [maxAUpTo, max_eq_right hle]⟩
      · refine ⟨j, Nat.lt_succ_of_lt hj, ?_⟩
        show max (maxAUpTo iq n) (a iq n) = a iq j
        rw [max_eq_left (le_of_not_le hle), he]

/-! Bridging the partial (bounds-checked) embedding with the total one. -/

lemma get?_eq_getD (l : List Nat) (idx : Nat) (h : idx < l.length) :
    l.get? idx = some (l.getD idx 0) := by
  rw [List.get?_eq_get h, List.getD_eq_get]

/-- On a list long enough to hold the whole raw buffer, every read of the
frame loop is in range: the checked sums never take the `none` branch and
agree with the total embedding applied to the list's contents. -/
lemma sumIQFromList_eq (l : List Nat) (j : Nat)
    (hj : j < AUDIO_BUFFER_LENGTH) (hl : SDR_BUFFER_LENGTH ≤ l.length)
    (m : Nat) (hm : m ≤ SDR_DECIMATION) :
    sumIQFromList l j m = some (sumIQ (fun idx => l.getD idx 0) j m) := by
  induction m with
  | zero => simp [sumIQFromList, sumIQ]
  | succ m ih =>
    have hm' : m ≤ SDR_DECIMATION := Nat.le_of_succ_le hm
    have h1 : j < 16384 := by simpa [AUDIO_BUFFER_LENGTH] using hj
    have h2 : (163840 : Nat) ≤ l.length := by
      have := hl
      simp only [SDR_BUFFER_LENGTH, AUDIO_BUFFER_LENGTH, SDR_DECIMATION] at this
      omega
    have h3 : m < 5 := by
      have := hm
      simp only [SDR_DECIMATION] at this
      omega
    have hlen : j * SDR_DECIMATION * 2 + m * 2 + 1 < l.length := by
      simp only [SDR_DECIMATION]
      omega
    have hlen2 : j * SDR_DECIMATION * 2 + m * 2 < l.length := Nat.lt_of_succ_lt hlen
    simp only [sumIQFromList, ih hm', get?_eq_getD l _ hlen2, get?_eq_getD l _ hlen]
    simp [sumIQ, sample]

/-! Evaluation lemmas for constant raw buffers (used by counterexamples
and witnesses). -/

lemma sample_const (c : Nat) (idx : Nat) :
    sample (fun _ => c) idx = (((c % 256 : Nat) : ℚ) - 127.5) / 127.5 := by
  have h := Nat.and_pow_two_sub_one_eq_mod c 8
  norm_num at h
  simp [sample, h]

lemma sumIQ_const (c : Nat) (j m : Nat) :
    sumIQ (fun _ => c) j m =
      ((m : ℚ) * ((((c % 256 : Nat) : ℚ) - 127.5) / 127.5),
       (m : ℚ) * ((((c % 256 : Nat) : ℚ) - 127.5) / 127.5)) := by
  induction m with
  | zero => simp [sumIQ]
  | succ m ih =>
    simp only [sumIQ, ih, sample_const, Prod.mk.injEq]
    constructor <;> push_cast <;> ring

lemma q_const (c : Nat) (j : Nat) :
    q (fun _ => c) j = (((c % 256 : Nat) : ℚ) - 127.5) / 127.5 := by
  unfold q
  rw [sumIQ_const]
  simp only [SDR_DECIMATION, Nat.cast_ofNat]
  exact mul_div_cancel_left₀ _ (by norm_num)

/-! Projections of one callback invocation. -/

lemma callback_buffer (iq : Nat → Nat) (len : Nat) (s : State) (h : s.do_exit = false) :
    (sdr_callback iq len s).g_audio_buffer =
      audioLoop s.audio_channel iq s.g_audio_buffer AUDIO_BUFFER_LENGTH := by
  simp [sdr_callback, h]

lemma callback_sink (iq : Nat → Nat) (len : Nat) (s : State) (h : s.do_exit = false) :
    (sdr_callback iq len s).sink =
      s.sink ++ [(List.range (AUDIO_BUFFER_LENGTH * AUDIO_CHANNELS)).map
        (audioLoop s.audio_channel iq s.g_audio_buffer AUDIO_BUFFER_LENGTH)] := by
  simp [sdr_callback, h]

lemma callback_do_exit (iq : Nat → Nat) (len : Nat) (s : State) :
    (sdr_callback iq len s).do_exit = s.do_exit := by
  unfold sdr_callback
  split <;> rfl

lemma callback_channel (iq : Nat → Nat) (len : Nat) (s : State) :
    (sdr_callback iq len s).audio_channel = s.audio_channel := by
  unfold sdr_callback
  split <;> rfl

/-! The claims. -/

/-- C1, counterexample: at the all-zero raw buffer (every byte `0`, so the
decimated pair is `(-1, -1)`), the value the callback stores in slot `0`
of the audio buffer is `-1`, which differs from the envelope magnitude
`a = sqrt(I² + Q²) = sqrt 2` of frame `0`: the code stores the decimated
Q component, not the envelope. -/
theorem envelope_claim_cex :
    ¬ (((sdr_callback (fun _ => 0) SDR_BUFFER_LENGTH ⟨false, 0, fun _ => 0, []⟩).g_audio_buffer 0 : ℝ)
        = a (fun _ => 0) 0) := by
  have hb : (sdr_callback (fun _ => 0) SDR_BUFFER_LENGTH
      (⟨false, 0, fun _ => 0, []⟩ : State)).g_audio_buffer 0 = q (fun _ => 0) 0 := by
    rw [callback_buffer _ _ _ rfl]
    simpa using audioLoop_left_val 0 (fun _ => 0) (fun _ => 0) AUDIO_BUFFER_LENGTH 0
      (Or.inl rfl) (by norm_num [AUDIO_BUFFER_LENGTH])
  rw [hb, q_const]
  norm_num
  intro he
  have hn := a_nonneg (fun _ => 0) 0
  rw [← he] at hn
  norm_num at hn

/-- C1, amended: for every raw buffer processed while the cancellation
flag is clear, the value stored in the audio buffer at frame `j` in each
channel slot selected by the routing mode equals the decimated Q
component of that frame (the envelope magnitude is computed but used only
for the peak meter). -/
theorem audio_slot_value (iq : Nat → Nat) (len : Nat) (s : State)
    (h : s.do_exit = false) (j : Nat) (hj : j < AUDIO_BUFFER_LENGTH) :
    ((s.audio_channel = 0 ∨ s.audio_channel = 1) →
        (sdr_callback iq len s).g_audio_buffer (2 * j) = q iq j) ∧
    ((s.audio_channel = 0 ∨ s.audio_channel = 2) →
        (sdr_callback iq len s).g_audio_buffer (2 * j + 1) = q iq j) := by
  rw [callback_buffer _ _ _ h]
  exact ⟨fun hch => audioLoop_left_val _ _ _ _ _ hch hj,
         fun hch => audioLoop_right_val _ _ _ _ _ hch hj⟩

/-- C1, witness for the amended theorem at a concrete state and buffer. -/
theorem audio_slot_value_w :
    (((0 : ℤ) = 0 ∨ (0 : ℤ) = 1) →
        (sdr_callback (fun _ => 0) SDR_BUFFER_LENGTH
          ⟨false, 0, fun _ => 0, []⟩).g_audio_buffer (2 * 0) = q (fun _ => 0) 0) ∧
    (((0 : ℤ) = 0 ∨ (0 : ℤ) = 2) →
        (sdr_callback (fun _ => 0) SDR_BUFFER_LENGTH
          ⟨false, 0, fun _ => 0, []⟩).g_audio_buffer (2 * 0 + 1) = q (fun _ => 0) 0) :=
  audio_slot_value (fun _ => 0) SDR_BUFFER_LENGTH ⟨false, 0, fun _ => 0, []⟩ rfl 0
    (by norm_num [AUDIO_BUFFER_LENGTH])

/-- C2: for a raw buffer of bytes, the decimated I value is the arithmetic
mean over `k < SDR_DECIMATION` of `(raw[j*ratio*2 + k*2] - 127.5) / 127.5`
and the decimated Q value is the same mean over the bytes at the odd
offsets. -/
theorem decimation_is_mean (iq : Nat → Nat) (hb : ∀ idx, iq idx ≤ 255) (j : Nat) :
    i iq j = (∑ k in Finset.range SDR_DECIMATION,
        (((iq (j * SDR_DECIMATION * 2 + k * 2) : ℚ)) - 127.5) / 127.5) / (SDR_DECIMATION : ℚ) ∧
    q iq j = (∑ k in Finset.range SDR_DECIMATION,
        (((iq (j * SDR_DECIMATION * 2 + k * 2 + 1) : ℚ)) - 127.5) / 127.5) / (SDR_DECIMATION : ℚ) := by
  have hmask : ∀ idx, sample iq idx = (((iq idx : ℚ)) - 127.5) / 127.5 := by
    intro idx
    have hm := Nat.and_pow_two_sub_one_eq_mod (iq idx) 8
    norm_num at hm
    rw [sample, hm, Nat.mod_eq_of_lt (by have := hb idx; omega)]
  unfold i q
  rw [(sumIQ_eq_sum iq j SDR_DECIMATION).1, (sumIQ_eq_sum iq j SDR_DECIMATION).2]
  constructor <;> congr 1 <;> exact Finset.sum_congr rfl fun k _ => hmask _

/-- C2, witness at the constant byte buffer `100` and frame `3`. -/
theorem decimation_is_mean_w :
    i (fun _ => 100) 3 = (∑ k in Finset.range SDR_DECIMATION,
        (((100 : Nat) : ℚ) - 127.5) / 127.5) / (SDR_DECIMATION : ℚ) ∧
    q (fun _ => 100) 3 = (∑ k in Finset.range SDR_DECIMATION,
        (((100 : Nat) : ℚ) - 127.5) / 127.5) / (SDR_DECIMATION : ℚ) :=
  decimation_is_mean (fun _ => 100) (fun _ => by norm_num) 3

/-- C3, counterexample: at the all-zero raw buffer the value written to
slot `0` is `-1`, outside the claimed range `[0, 1]`. -/
theorem output_range_cex :
    ¬ (0 ≤ (sdr_callback (fun _ => 0) SDR_BUFFER_LENGTH
          ⟨false, 0, fun _ => 0, []⟩).g_audio_buffer 0 ∧
        (sdr_callback (fun _ => 0) SDR_BUFFER_LENGTH
          ⟨false, 0, fun _ => 0, []⟩).g_audio_buffer 0 ≤ 1) := by
  have hb : (sdr_callback (fun _ => 0) SDR_BUFFER_LENGTH
      (⟨false, 0, fun _ => 0, []⟩ : State)).g_audio_buffer 0 = q (fun _ => 0) 0 := by
    rw [callback_buffer _ _ _ rfl]
    simpa using audioLoop_left_val 0 (fun _ => 0) (fun _ => 0) AUDIO_BUFFER_LENGTH 0
      (Or.inl rfl) (by norm_num [AUDIO_BUFFER_LENGTH])
  rw [hb, q_const]
  norm_num

/-- C3, amended: every demodulated sample written to the selected channel
slots lies in `[-1, 1]` (the decimated Q value of a byte buffer; it can be
negative, e.g. `-1` at an all-zero buffer). -/
theorem output_range_signed (iq : Nat → Nat) (len : Nat) (s : State)
    (h : s.do_exit = false) (j : Nat) (hj : j < AUDIO_BUFFER_LENGTH) :
    ((s.audio_channel = 0 ∨ s.audio_channel = 1) →
        -1 ≤ (sdr_callback iq len s).g_audio_buffer (2 * j) ∧
        (sdr_callback iq len s).g_audio_buffer (2 * j) ≤ 1) ∧
    ((s.audio_channel = 0 ∨ s.audio_channel = 2) →
        -1 ≤ (sdr_callback iq len s).g_audio_buffer (2 * j + 1) ∧
        (sdr_callback iq len s).g_audio_buffer (2 * j + 1) ≤ 1) := by
  rw [callback_buffer _ _ _ h]
  constructor
  · intro hch
    rw [audioLoop_left_val _ _ _ _ _ hch hj]
    exact q_bounds iq j
  · intro hch
    rw [audioLoop_right_val _ _ _ _ _ hch hj]
    exact q_bounds iq j

/-- C3, witness for the amended theorem at a concrete state and buffer. -/
theorem output_range_signed_w :
    (((0 : ℤ) = 0 ∨ (0 : ℤ) = 1) →
        -1 ≤ (sdr_callback (fun _ => 255) SDR_BUFFER_LENGTH
            ⟨false, 0, fun _ => 0, []⟩).g_audio_buffer (2 * 1) ∧
        (sdr_callback (fun _ => 255) SDR_BUFFER_LENGTH
            ⟨false, 0, fun _ => 0, []⟩).g_audio_buffer (2 * 1) ≤ 1) ∧
    (((0 : ℤ) = 0 ∨ (0 : ℤ) = 2) →
        -1 ≤ (sdr_callback (fun _ => 255) SDR_BUFFER_LENGTH
            ⟨false, 0, fun _ => 0, []⟩).g_audio_buffer (2 * 1 + 1) ∧
        (sdr_callback (fun _ => 255) SDR_BUFFER_LENGTH
            ⟨false, 0, fun _ => 0, []⟩).g_audio_buffer (2 * 1 + 1) ≤ 1) :=
  output_range_signed (fun _ => 255) SDR_BUFFER_LENGTH ⟨false, 0, fun _ => 0, []⟩ rfl 1
    (by norm_num [AUDIO_BUFFER_LENGTH])

/-- C4: the source contains no length check at all, evaluated at the
failing input `len = 0` with the flag clear.  First conjunct: the call
still appends a frame to the audio sink.  Second conjunct: the stored
audio depends on raw bytes at indices at and beyond the declared length
`0`, i.e. the callback reads past the length it was given. -/
theorem missing_length_check :
    (sdr_callback (fun _ => 0) 0 ⟨false, 0, fun _ => 0, []⟩).sink ≠
      (⟨false, 0, fun _ => 0, []⟩ : State).sink ∧
    (sdr_callback (fun _ => 0) 0 ⟨false, 0, fun _ => 0, []⟩).g_audio_buffer 0 ≠
      (sdr_callback (fun _ => 255) 0 ⟨false, 0, fun _ => 0, []⟩).g_audio_buffer 0 := by
  constructor
  · rw [callback_sink _ _ _ rfl]
    simp
  · have hb0 : (sdr_callback (fun _ => 0) 0
        (⟨false, 0, fun _ => 0, []⟩ : State)).g_audio_buffer 0 = q (fun _ => 0) 0 := by
      rw [callback_buffer _ _ _ rfl]
      simpa using audioLoop_left_val 0 (fun _ => 0) (fun _ => 0) AUDIO_BUFFER_LENGTH 0
        (Or.inl rfl) (by norm_num [AUDIO_BUFFER_LENGTH])
    have hb255 : (sdr_callback (fun _ => 255) 0
        (⟨false, 0, fun _ => 0, []⟩ : State)).g_audio_buffer 0 = q (fun _ => 255) 0 := by
      rw [callback_buffer _ _ _ rfl]
      simpa using audioLoop_left_val 0 (fun _ => 255) (fun _ => 0) AUDIO_BUFFER_LENGTH 0
        (Or.inl rfl) (by norm_num [AUDIO_BUFFER_LENGTH])
    rw [hb0, hb255, q_const, q_const]
    norm_num

/-- C5: an invocation that begins after the cancellation flag is set is a
no-op: the state — audio buffer, sink and all — is returned unchanged
(the early `if (do_exit) return;` is taken before any effect, including
the peak-meter output). -/
theorem cancelled_noop (iq : Nat → Nat) (len : Nat) (s : State)
    (h : s.do_exit = true) :
    sdr_callback iq len s = s := by
  simp [sdr_callback, h]

/-- C5, witness at a concrete cancelled state. -/
theorem cancelled_noop_w :
    sdr_callback (fun _ => 0) SDR_BUFFER_LENGTH ⟨true, 0, fun _ => 0, []⟩ =
      ⟨true, 0, fun _ => 0, []⟩ :=
  cancelled_noop (fun _ => 0) SDR_BUFFER_LENGTH ⟨true, 0, fun _ => 0, []⟩ rfl

/-- C6: two consecutive invocations on the same raw buffer and length,
with the flag clear, leave the audio buffer in identical states and
append the very same frame to the sink both times: no hidden state
carries across calls. -/
theorem callback_deterministic (iq : Nat → Nat) (len : Nat) (s : State)
    (h : s.do_exit = false) :
    (sdr_callback iq len (sdr_callback iq len s)).g_audio_buffer =
      (sdr_callback iq len s).g_audio_buffer ∧
    ∃ fr : List ℚ,
      (sdr_callback iq len s).sink = s.sink ++ [fr] ∧
      (sdr_callback iq len (sdr_callback iq len s)).sink =
        (sdr_callback iq len s).sink ++ [fr] := by
  have h1 : (sdr_callback iq len s).do_exit = false := by
    rw [callback_do_exit]
    exact h
  have hch := callback_channel iq len s
  have hb1 := callback_buffer iq len s h
  constructor
  · rw [callback_buffer iq len _ h1, hch, hb1, audioLoop_idem]
  · refine ⟨(List.range (AUDIO_BUFFER_LENGTH * AUDIO_CHANNELS)).map
        (audioLoop s.audio_channel iq s.g_audio_buffer AUDIO_BUFFER_LENGTH),
      callback_sink iq len s h, ?_⟩
    rw [callback_sink iq len _ h1, hch, hb1, audioLoop_idem]

/-- C6, witness at a concrete state and buffer. -/
theorem callback_deterministic_w :
    (sdr_callback (fun _ => 9) SDR_BUFFER_LENGTH
        (sdr_callback (fun _ => 9) SDR_BUFFER_LENGTH ⟨false, 1, fun _ => 0, []⟩)).g_audio_buffer =
      (sdr_callback (fun _ => 9) SDR_BUFFER_LENGTH ⟨false, 1, fun _ => 0, []⟩).g_audio_buffer ∧
    ∃ fr : List ℚ,
      (sdr_callback (fun _ => 9) SDR_BUFFER_LENGTH ⟨false, 1, fun _ => 0, []⟩).sink =
        (⟨false, 1, fun _ => 0, []⟩ : State).sink ++ [fr] ∧
      (sdr_callback (fun _ => 9) SDR_BUFFER_LENGTH
          (sdr_callback (fun _ => 9) SDR_BUFFER_LENGTH ⟨false, 1, fun _ => 0, []⟩)).sink =
        (sdr_callback (fun _ => 9) SDR_BUFFER_LENGTH ⟨false, 1, fun _ => 0, []⟩).sink ++ [fr] :=
  callback_deterministic (fun _ => 9) SDR_BUFFER_LENGTH ⟨false, 1, fun _ => 0, []⟩ rfl

/-- C7: the peak level emitted by one (non-cancelled) invocation bounds
the envelope magnitude of every output frame of that invocation and is
attained at one of them.  `maxA` takes only the raw buffer as argument
because the running peak is a local variable reinitialised to `0` at the
top of every call — nothing accumulates across invocations. -/
theorem peak_is_invocation_max (iq : Nat → Nat) :
    (∀ j, j < AUDIO_BUFFER_LENGTH → a iq j ≤ maxA iq) ∧
    (∃ j, j < AUDIO_BUFFER_LENGTH ∧ maxA iq = a iq j) := by
  constructor
  · intro j hj
    exact le_maxAUpTo iq _ j hj
  · exact maxAUpTo_attained iq _ (by norm_num [AUDIO_BUFFER_LENGTH])

/-- C8: routing mode `Left` (1) writes only even slots and leaves odd
slots untouched, mode `Right` (2) writes only odd slots and leaves even
slots untouched, and mode `Both` (0) gives both slots of a frame the same
value. -/
theorem channel_routing (iq : Nat → Nat) (len : Nat) (s : State)
    (h : s.do_exit = false) (j : Nat) (hj : j < AUDIO_BUFFER_LENGTH) :
    (s.audio_channel = 1 →
        (sdr_callback iq len s).g_audio_buffer (2 * j) = q iq j ∧
        (sdr_callback iq len s).g_audio_buffer (2 * j + 1) = s.g_audio_buffer (2 * j + 1)) ∧
    (s.audio_channel = 2 →
        (sdr_callback iq len s).g_audio_buffer (2 * j + 1) = q iq j ∧
        (sdr_callback iq len s).g_audio_buffer (2 * j) = s.g_audio_buffer (2 * j)) ∧
    (s.audio_channel = 0 →
        (sdr_callback iq len s).g_audio_buffer (2 * j) =
          (sdr_callback iq len s).g_audio_buffer (2 * j + 1)) := by
  rw [callback_buffer _ _ _ h]
  refine ⟨fun hc => ?_, fun hc => ?_, fun hc => ?_⟩
  · rw [hc]
    exact ⟨audioLoop_left_val _ _ _ _ _ (Or.inr rfl) hj,
           audioLoop_right_skip _ _ _ _ _ (by decide)⟩
  · rw [hc]
    exact ⟨audioLoop_right_val _ _ _ _ _ (Or.inr rfl) hj,
           audioLoop_left_skip _ _ _ _ _ (by decide)⟩
  · rw [hc, audioLoop_left_val _ _ _ _ _ (Or.inl rfl) hj,
        audioLoop_right_val _ _ _ _ _ (Or.inl rfl) hj]

/-- C8, witness at a concrete state in mode `Left`. -/
theorem channel_routing_w :
    (((1 : ℤ) = 1) →
        (sdr_callback (fun _ => 3) SDR_BUFFER_LENGTH
            ⟨false, 1, fun _ => 7, []⟩).g_audio_buffer (2 * 2) = q (fun _ => 3) 2 ∧
        (sdr_callback (fun _ => 3) SDR_BUFFER_LENGTH
            ⟨false, 1, fun _ => 7, []⟩).g_audio_buffer (2 * 2 + 1) = (fun _ => (7 : ℚ)) (2 * 2 + 1)) ∧
    (((1 : ℤ) = 2) →
        (sdr_callback (fun _ => 3) SDR_BUFFER_LENGTH
            ⟨false, 1, fun _ => 7, []⟩).g_audio_buffer (2 * 2 + 1) = q (fun _ => 3) 2 ∧
        (sdr_callback (fun _ => 3) SDR_BUFFER_LENGTH
            ⟨false, 1, fun _ => 7, []⟩).g_audio_buffer (2 * 2) = (fun _ => (7 : ℚ)) (2 * 2)) ∧
    (((1 : ℤ) = 0) →
        (sdr_callback (fun _ => 3) SDR_BUFFER_LENGTH
            ⟨false, 1, fun _ => 7, []⟩).g_audio_buffer (2 * 2) =
          (sdr_callback (fun _ => 3) SDR_BUFFER_LENGTH
            ⟨false, 1, fun _ => 7, []⟩).g_audio_buffer (2 * 2 + 1)) :=
  channel_routing (fun _ => 3) SDR_BUFFER_LENGTH ⟨false, 1, fun _ => 7, []⟩ rfl 2
    (by norm_num [AUDIO_BUFFER_LENGTH])

/-- C9, counterexample: `main` returns `r >= 0 ? r : -r` with no regard to
the cancellation flag.  At `do_exit = false`, `r = 0` (delivery loop ends
on its own with code `0`, no user request) the exit status is `0`, where
the claim demands a non-zero status. -/
theorem exit_status_cex :
    main_return 0 = 0 ∧ ¬ (false = true ∧ (0 : ℤ) ≤ 0) := by
  constructor
  · rfl
  · simp

/-- C9, amended: the exit status is the absolute value of the delivery
loop's return code — zero exactly when that code is `0`, independent of
whether the cancellation flag was set. -/
theorem exit_status_abs (r : ℤ) :
    main_return r = |r| ∧ (main_return r = 0 ↔ r = 0) := by
  rcases le_or_lt 0 r with h | h
  · rw [main_return, if_pos h, abs_of_nonneg h]
    exact ⟨rfl, Iff.rfl⟩
  · rw [main_return, if_neg (not_le.mpr h), abs_of_neg h]
    exact ⟨rfl, by omega⟩

/-- C10: the fixed buffer sizes are `163840` raw bytes and `32768` audio
cells; every raw index the frame loop reads and every audio index it
writes is within those bounds, and on a raw list of sufficient length the
bounds-checked embedding of the decimation sums never takes its `none`
branch and agrees with the total embedding. -/
theorem callback_in_bounds (l : List Nat) (hl : SDR_BUFFER_LENGTH ≤ l.length) :
    (SDR_BUFFER_LENGTH = 163840 ∧ AUDIO_BUFFER_LENGTH * AUDIO_CHANNELS = 32768) ∧
    (∀ j k, j < AUDIO_BUFFER_LENGTH → k < SDR_DECIMATION →
        j * SDR_DECIMATION * 2 + k * 2 < SDR_BUFFER_LENGTH ∧
        j * SDR_DECIMATION * 2 + k * 2 + 1 < SDR_BUFFER_LENGTH) ∧
    (∀ j, j < AUDIO_BUFFER_LENGTH →
        2 * j < AUDIO_BUFFER_LENGTH * AUDIO_CHANNELS ∧
        2 * j + 1 < AUDIO_BUFFER_LENGTH * AUDIO_CHANNELS) ∧
    (∀ j, j < AUDIO_BUFFER_LENGTH →
        sumIQFromList l j SDR_DECIMATION =
          some (sumIQ (fun idx => l.getD idx 0) j SDR_DECIMATION)) := by
  refine ⟨⟨rfl, rfl⟩, fun j k hj hk => ?_, fun j hj => ?_, fun j hj => ?_⟩
  · simp only [AUDIO_BUFFER_LENGTH, SDR_DECIMATION, SDR_BUFFER_LENGTH] at *
    omega
  · simp only [AUDIO_BUFFER_LENGTH, AUDIO_CHANNELS] at *
    omega
  · exact sumIQFromList_eq l j hj hl SDR_DECIMATION le_rfl

/-- C10, witness on a concrete raw list of exactly the expected length. -/
theorem callback_in_bounds_w :
    (SDR_BUFFER_LENGTH = 163840 ∧ AUDIO_BUFFER_LENGTH * AUDIO_CHANNELS = 32768) ∧
    (∀ j k, j < AUDIO_BUFFER_LENGTH → k < SDR_DECIMATION →
        j * SDR_DECIMATION * 2 + k * 2 < SDR_BUFFER_LENGTH ∧
        j * SDR_DECIMATION * 2 + k * 2 + 1 < SDR_BUFFER_LENGTH) ∧
    (∀ j, j < AUDIO_BUFFER_LENGTH →
        2 * j < AUDIO_BUFFER_LENGTH * AUDIO_CHANNELS ∧
        2 * j + 1 < AUDIO_BUFFER_LENGTH * AUDIO_CHANNELS) ∧
    (∀ j, j < AUDIO_BUFFER_LENGTH →
        sumIQFromList (List.replicate SDR_BUFFER_LENGTH 0) j SDR_DECIMATION =
          some (sumIQ (fun idx => (List.replicate SDR_BUFFER_LENGTH 0).getD idx 0) j
            SDR_DECIMATION)) :=
  callback_in_bounds (List.replicate SDR_BUFFER_LENGTH 0) (by simp)

end RtlSdrAudio
